import Mathlib

/-
Verification of the manifest scanner in
src/sandbox/contribs/bootjvm/bootJVM/jvm/src/manifest.c
(function manifest_get_main).

The embedding models one physical manifest line as a list of bytes
(the contents of the fgets buffer, not including the terminating NUL
that fgets appends).  The C code only ever inspects bytes at indices
below the first NUL (strlen-bounded loops, NUL-stopping strncmp), so
byteAt returns 0 past the end of the list, matching the terminator.
-/

namespace Harmony

/-- C library isspace in the C locale, on byte values: true exactly for
space (32), tab (9), newline (10), vertical tab (11), form feed (12)
and carriage return (13).  Used by manifest.c lines 127 and 144. -/
def isspace (c : Nat) : Bool :=
  c == 32 || c == 9 || c == 10 || c == 11 || c == 12 || c == 13

/-- Byte of the line buffer at index k; index s.length reads the NUL
terminator that fgets appended, modelled as 0. -/
def byteAt (s : List Nat) (k : Nat) : Nat := s.getD k 0

/-- C strlen on the buffer: number of bytes before the first NUL. -/
def strlenC : List Nat → Nat
  | [] => 0
  | b :: bs => if b = 0 then 0 else strlenC bs + 1

/-- C strncmp restricted to its zero-test: true iff strncmp(s, t, n)
returns 0.  Compares at most n bytes and stops at the first NUL, as the
C library function does. -/
def strncmpEq : List Nat → List Nat → Nat → Bool
  | _, _, 0 => true
  | s, t, n + 1 =>
    if s.headD 0 ≠ t.headD 0 then false
    else if s.headD 0 = 0 then true
    else strncmpEq s.tail t.tail n

/-- Modelled from the spec: the attribute literal
JVMCFG_JARFILE_MANIFEST_MAIN_CLASS is declared in jvmcfg.h, a header
that is not under src/; the spec fixes its value to "Main-Class:"
including the colon.  These are the ASCII bytes of that string. -/
def JVMCFG_JARFILE_MANIFEST_MAIN_CLASS : List Nat :=
  [77, 97, 105, 110, 45, 67, 108, 97, 115, 115, 58]

/-- mclen = strlen(JVMCFG_JARFILE_MANIFEST_MAIN_CLASS), manifest.c line 101. -/
def mclen : Nat := strlenC JVMCFG_JARFILE_MANIFEST_MAIN_CLASS

/-- The two value-delimiting for-loops of manifest.c (lines 124-131 and
141-148) share this shape: starting at k, advance while k < strlen(s)
and the predicate p rejects the current byte; stop at the first index
whose byte satisfies p, or at strlen(s), or at k itself when the loop
guard fails immediately.  The fuel argument is the loop's termination
measure strlen(s) - k; the wrapper scanLoop below supplies it, so the
loop body here is exactly the C loop body and the function still
computes by kernel reduction. -/
def scanLoopFuel (p : Nat → Bool) (s : List Nat) : Nat → Nat → Nat
  | 0, k => k
  | fuel + 1, k =>
    if k < strlenC s then
      if p (byteAt s k) then k else scanLoopFuel p s fuel (k + 1)
    else k

/-- Entry point of either for-loop of manifest.c at initial index k. -/
def scanLoop (p : Nat → Bool) (s : List Nat) (k : Nat) : Nat :=
  scanLoopFuel p s (strlenC s - k) k

/-- Index i of manifest.c lines 123-131: first non-whitespace byte at or
after mclen (start of the class name), or strlen if none. -/
def iIdx (l : List Nat) : Nat := scanLoop (fun b => !isspace b) l mclen

/-- Index j of manifest.c lines 140-148: first whitespace byte at or
after i (end of the class name), or strlen if none. -/
def jIdx (l : List Nat) : Nat := scanLoop (fun b => isspace b) l (iIdx l)

/-- The match test of manifest.c lines 110-115: the line matches when
strncmp(mnfdata, JVMCFG_JARFILE_MANIFEST_MAIN_CLASS, mclen) == 0. -/
def isMatch (l : List Nat) : Bool :=
  strncmpEq l JVMCFG_JARFILE_MANIFEST_MAIN_CLASS mclen

/-- The exit code EXIT_MANIFEST_JAR passed to exit_jvm at manifest.c
line 169; its numeric value lives in exit.h, outside src/, so it is
kept symbolic. -/
inductive ExitCode
  | manifestJar
deriving DecidableEq

/-- How one call of manifest_get_main ends: Ret p models the function
returning pointer p to its caller (some v = heap string with bytes v,
none = rnull); Exit logged code models sysErrMsg (when logged) followed
by exit_jvm(code), which never returns (the NOTREACHED path at
manifest.c lines 164-170). -/
inductive COutcome
  | Ret : Option (List Nat) → COutcome
  | Exit : Bool → ExitCode → COutcome
deriving DecidableEq

/-- Observable trace of one call: the outcome, how many lines were
obtained from fgets and inspected, and whether the FILE handle is
released when the call ends (fclose at manifest.c lines 151 and 180;
on the fopen-failure path no handle was ever acquired). -/
structure ScanTrace where
  outcome : COutcome
  linesRead : Nat
  handleReleased : Bool
deriving DecidableEq

/-- memcpy(mnfresult, &mnfdata[i], j - i) of manifest.c line 173: the
bytes of the buffer from index i (inclusive) to j (exclusive). -/
def copyValue (l : List Nat) (i j : Nat) : List Nat :=
  (l.drop i).take (j - i)

/-- Processing of a line that passed the match test, manifest.c lines
117-177: compute i and j, fclose the handle (line 151), then either
return the copied value (i != j) or free the buffer, log through
sysErrMsg and terminate through exit_jvm (i == j, lines 161-171). -/
def scanLine (l : List Nat) : ScanTrace :=
  if iIdx l ≠ jIdx l then
    { outcome := COutcome.Ret (some (copyValue l (iIdx l) (jIdx l)))
      linesRead := 1
      handleReleased := true }
  else
    { outcome := COutcome.Exit true ExitCode.manifestJar
      linesRead := 1
      handleReleased := true }

/-- The fgets loop of manifest.c lines 104-178: lines are consumed in
order; a non-matching line is skipped (continue, line 114); the first
matching line is handed to scanLine and the loop never resumes; when
the list is exhausted the handle is closed (line 180) and rnull is
returned (line 184). -/
def scanLines : List (List Nat) → ScanTrace
  | [] => { outcome := COutcome.Ret none, linesRead := 0, handleReleased := true }
  | l :: ls =>
    if isMatch l then scanLine l
    else
      let t := scanLines ls
      { t with linesRead := t.linesRead + 1 }

/-- The input as seen through the stdio collaborator: either fopen
fails (manifest.c lines 92-97) or it succeeds and fgets yields the
given finite list of lines before end of file. -/
inductive FileSource
  | unavailable
  | lines : List (List Nat) → FileSource

/-- manifest_get_main, manifest.c lines 90-186: on fopen failure return
rnull at once (no handle held); otherwise run the fgets scan loop. -/
def manifest_get_main : FileSource → ScanTrace
  | FileSource.unavailable =>
    { outcome := COutcome.Ret none, linesRead := 0, handleReleased := true }
  | FileSource.lines ls => scanLines ls

/-- True iff the outcome hands a value (possibly rnull) back to the
caller, as opposed to ending the process through exit_jvm. -/
def returnsToCaller : COutcome → Bool
  | COutcome.Ret _ => true
  | COutcome.Exit _ _ => false

/-- True iff the outcome logged through sysErrMsg. -/
def logsError : COutcome → Bool
  | COutcome.Ret _ => false
  | COutcome.Exit logged _ => logged

/-! Basic facts about the embedded C primitives. -/

theorem scanLoop_unfold (p : Nat → Bool) (s : List Nat) (k : Nat) :
    scanLoop p s k = if k < strlenC s then
      (if p (byteAt s k) then k else scanLoop p s (k + 1)) else k := by
  rw [scanLoop, scanLoop]
  by_cases h : k < strlenC s
  · have hf : strlenC s - k = (strlenC s - (k + 1)) + 1 := by omega
    rw [hf, scanLoopFuel]
  · have hf : strlenC s - k = 0 := by omega
    rw [hf, scanLoopFuel]
    simp [h]

/-- Custom induction principle matching the control flow of the C
loops: a step where the loop breaks, a step where it advances, and the
case where the guard fails at entry. -/
theorem scanLoop_ind (p : Nat → Bool) (s : List Nat) (motive : Nat → Prop)
    (case1 : ∀ k, k < strlenC s → p (byteAt s k) = true → motive k)
    (case2 : ∀ k, k < strlenC s → ¬p (byteAt s k) = true → motive (k + 1) → motive k)
    (case3 : ∀ k, ¬k < strlenC s → motive k) : ∀ k, motive k := by
  have key : ∀ fuel k, strlenC s - k ≤ fuel → motive k := by
    intro fuel
    induction fuel with
    | zero =>
      intro k hk
      exact case3 k (by omega)
    | succ f ih =>
      intro k hk
      by_cases hlt : k < strlenC s
      · by_cases hp : p (byteAt s k) = true
        · exact case1 k hlt hp
        · exact case2 k hlt hp (ih (k + 1) (by omega))
      · exact case3 k hlt
  exact fun k => key (strlenC s - k) k le_rfl

theorem le_scanLoop (p : Nat → Bool) (s : List Nat) (k : Nat) : k ≤ scanLoop p s k := by
  induction k using scanLoop_ind p s with
  | case1 k hk hp => rw [scanLoop_unfold]; simp [hk, hp]
  | case2 k hk hp ih => rw [scanLoop_unfold]; simp [hk, hp]; omega
  | case3 k hk => rw [scanLoop_unfold]; simp [hk]

theorem scanLoop_le (p : Nat → Bool) (s : List Nat) (k : Nat) :
    scanLoop p s k ≤ max k (strlenC s) := by
  induction k using scanLoop_ind p s with
  | case1 k hk hp => rw [scanLoop_unfold]; simp [hk, hp]
  | case2 k hk hp ih => rw [scanLoop_unfold]; simp [hk, hp]; omega
  | case3 k hk => rw [scanLoop_unfold]; simp [hk]

theorem scanLoop_of_ge (p : Nat → Bool) (s : List Nat) (k : Nat) (h : strlenC s ≤ k) :
    scanLoop p s k = k := by
  rw [scanLoop_unfold]
  simp [Nat.not_lt.mpr h]

theorem scanLoop_skipped (p : Nat → Bool) (s : List Nat) (k : Nat) :
    ∀ m, k ≤ m → m < scanLoop p s k → p (byteAt s m) = false := by
  induction k using scanLoop_ind p s with
  | case1 k hk hp =>
    intro m h1 h2
    rw [scanLoop_unfold] at h2
    simp [hk, hp] at h2
    omega
  | case2 k hk hp ih =>
    intro m h1 h2
    rw [scanLoop_unfold] at h2
    simp [hk, hp] at h2
    rcases Nat.eq_or_lt_of_le h1 with rfl | h1'
    · simpa using hp
    · exact ih m h1' h2
  | case3 k hk =>
    intro m h1 h2
    rw [scanLoop_unfold] at h2
    simp [hk] at h2
    omega

theorem scanLoop_stop (p : Nat → Bool) (s : List Nat) (k : Nat)
    (h : scanLoop p s k < strlenC s) : p (byteAt s (scanLoop p s k)) = true := by
  induction k using scanLoop_ind p s with
  | case1 k hk hp =>
    rw [scanLoop_unfold]
    rw [scanLoop_unfold] at h
    simp [hk, hp] at h ⊢
  | case2 k hk hp ih =>
    rw [scanLoop_unfold]
    rw [scanLoop_unfold] at h
    simp [hk, hp] at h ⊢
    exact ih h
  | case3 k hk =>
    rw [scanLoop_unfold] at h
    simp [hk] at h

theorem scanLoop_eq (p : Nat → Bool) (s : List Nat) (r : Nat)
    (h2 : r ≤ strlenC s)
    (h4 : r = strlenC s ∨ p (byteAt s r) = true) :
    ∀ k, k ≤ r → (∀ m, k ≤ m → m < r → p (byteAt s m) = false) →
      scanLoop p s k = r := by
  intro k
  induction k using scanLoop_ind p s with
  | case1 k hk hp =>
    intro h1 h3
    rw [scanLoop_unfold]
    simp [hk, hp]
    rcases Nat.eq_or_lt_of_le h1 with rfl | h1'
    · rfl
    · have := h3 k le_rfl h1'
      rw [hp] at this
      exact absurd this (by simp)
  | case2 k hk hp ih =>
    intro h1 h3
    rw [scanLoop_unfold]
    simp [hk, hp]
    have hkr : k < r := by
      rcases Nat.eq_or_lt_of_le h1 with rfl | h1'
      · rcases h4 with h4 | h4
        · omega
        · simp [h4] at hp
      · exact h1'
    exact ih hkr (fun m hm1 hm2 => h3 m (by omega) hm2)
  | case3 k hk =>
    intro h1 h3
    rw [scanLoop_unfold]
    simp [hk]
    omega

theorem strlenC_le_length (s : List Nat) : strlenC s ≤ s.length := by
  induction s with
  | nil => simp [strlenC]
  | cons b bs ih =>
    rw [strlenC]
    split
    · simp
    · simpa using ih

theorem strlenC_eq_length (s : List Nat) (h : ∀ b ∈ s, b ≠ 0) :
    strlenC s = s.length := by
  induction s with
  | nil => rfl
  | cons b bs ih =>
    rw [strlenC]
    have hb : b ≠ 0 := h b (by simp)
    simp [hb]
    exact ih (fun x hx => h x (by simp [hx]))

theorem byteAt_ne_zero (s : List Nat) : ∀ k, k < strlenC s → byteAt s k ≠ 0 := by
  induction s with
  | nil => intro k hk; simp [strlenC] at hk
  | cons b bs ih =>
    intro k hk
    rw [strlenC] at hk
    by_cases hb : b = 0
    · simp [hb] at hk
    · simp [hb] at hk
      match k with
      | 0 => simpa [byteAt] using hb
      | k + 1 =>
        have : k < strlenC bs := by omega
        simpa [byteAt] using ih k this

theorem byteAt_append_left (xs ys : List Nat) (k : Nat) (h : k < xs.length) :
    byteAt (xs ++ ys) k = byteAt xs k :=
  List.getD_append xs ys 0 k h

theorem byteAt_append_right (xs ys : List Nat) (k : Nat) (h : xs.length ≤ k) :
    byteAt (xs ++ ys) k = byteAt ys (k - xs.length) :=
  List.getD_append_right xs ys 0 k h

theorem byteAt_eq_getElem (s : List Nat) (k : Nat) (h : k < s.length) :
    byteAt s k = s[k] :=
  List.getD_eq_getElem s 0 h

theorem strncmpEq_iff_take (t : List Nat) (ht : ∀ b ∈ t, b ≠ 0) :
    ∀ s, strncmpEq s t t.length = true ↔ s.take t.length = t := by
  induction t with
  | nil =>
    intro s
    simp [strncmpEq]
  | cons b t2 ih =>
    intro s
    have hb : b ≠ 0 := ht b (by simp)
    have ht2 : ∀ x ∈ t2, x ≠ 0 := fun x hx => ht x (by simp [hx])
    cases s with
    | nil =>
      rw [List.length_cons, strncmpEq]
      simp [hb.symm]
    | cons a s2 =>
      rw [List.length_cons, strncmpEq]
      by_cases hab : a = b
      · subst hab
        simp [hb]
        exact ih ht2 s2
      · simp [hab]

theorem mclen_eq : mclen = JVMCFG_JARFILE_MANIFEST_MAIN_CLASS.length := by decide

theorem isMatch_iff_take (l : List Nat) :
    isMatch l = true ↔ l.take mclen = JVMCFG_JARFILE_MANIFEST_MAIN_CLASS := by
  rw [isMatch, mclen_eq]
  exact strncmpEq_iff_take JVMCFG_JARFILE_MANIFEST_MAIN_CLASS (by decide) l

theorem isspace_ne_zero (b : Nat) (h : isspace b = true) : b ≠ 0 := by
  rintro rfl
  simp [isspace] at h

/-! Structural facts about the fgets loop. -/

theorem scanLines_nil :
    scanLines [] = { outcome := COutcome.Ret none, linesRead := 0, handleReleased := true } :=
  rfl

theorem scanLines_cons_match (l : List Nat) (ls : List (List Nat)) (h : isMatch l = true) :
    scanLines (l :: ls) = scanLine l := by
  simp [scanLines, h]

theorem scanLines_cons_skip (l : List Nat) (ls : List (List Nat)) (h : isMatch l = false) :
    scanLines (l :: ls)
      = { scanLines ls with linesRead := (scanLines ls).linesRead + 1 } := by
  simp [scanLines, h]

theorem scanLines_append_skip (pre rest : List (List Nat))
    (h : ∀ x ∈ pre, isMatch x = false) :
    scanLines (pre ++ rest)
      = { scanLines rest with linesRead := pre.length + (scanLines rest).linesRead } := by
  induction pre with
  | nil => simp
  | cons x pre2 ih =>
    have hx : isMatch x = false := h x (by simp)
    have h2 : ∀ y ∈ pre2, isMatch y = false := fun y hy => h y (by simp [hy])
    rw [List.cons_append, scanLines_cons_skip x (pre2 ++ rest) hx, ih h2]
    simp
    omega

theorem scanLine_linesRead (l : List Nat) : (scanLine l).linesRead = 1 := by
  rw [scanLine]
  split <;> rfl

theorem scanLine_handleReleased (l : List Nat) : (scanLine l).handleReleased = true := by
  rw [scanLine]
  split <;> rfl

theorem scanLines_handleReleased (ls : List (List Nat)) :
    (scanLines ls).handleReleased = true := by
  induction ls with
  | nil => rfl
  | cons l ls2 ih =>
    by_cases h : isMatch l = true
    · rw [scanLines_cons_match l ls2 h]
      exact scanLine_handleReleased l
    · rw [scanLines_cons_skip l ls2 (by simpa using h)]
      exact ih

theorem scanLines_linesRead_le (ls : List (List Nat)) :
    (scanLines ls).linesRead ≤ ls.length := by
  induction ls with
  | nil => simp [scanLines_nil]
  | cons l ls2 ih =>
    by_cases h : isMatch l = true
    · rw [scanLines_cons_match l ls2 h, scanLine_linesRead]
      simp
    · rw [scanLines_cons_skip l ls2 (by simpa using h)]
      simp
      omega

/-! Facts about the value delimited by the indices i and j on a matching line. -/

theorem iIdx_le_jIdx (l : List Nat) : iIdx l ≤ jIdx l :=
  le_scanLoop isspace l (iIdx l)

theorem jIdx_eq_iIdx_of_ge (l : List Nat) (h : strlenC l ≤ iIdx l) : jIdx l = iIdx l :=
  scanLoop_of_ge isspace l (iIdx l) h

theorem iIdx_lt_strlen_of_ne (l : List Nat) (h : iIdx l ≠ jIdx l) : iIdx l < strlenC l := by
  by_contra h'
  push_neg at h'
  exact h (jIdx_eq_iIdx_of_ge l h').symm

theorem jIdx_le_strlen (l : List Nat) (h : iIdx l < strlenC l) : jIdx l ≤ strlenC l := by
  have h2 := scanLoop_le isspace l (iIdx l)
  rw [Nat.max_eq_right (Nat.le_of_lt h)] at h2
  exact h2

theorem mem_copyValue (l : List Nat) (i j b : Nat) (hj : j ≤ l.length)
    (hb : b ∈ copyValue l i j) : ∃ m, i ≤ m ∧ m < j ∧ byteAt l m = b := by
  rw [copyValue] at hb
  obtain ⟨n, hn, hEq⟩ := List.mem_iff_getElem.mp hb
  simp [List.length_take, List.length_drop] at hn
  refine ⟨i + n, by omega, by omega, ?_⟩
  rw [byteAt_eq_getElem l (i + n) (by omega), ← hEq]
  rw [List.getElem_take, List.getElem_drop]

theorem copyValue_length (l : List Nat) (i j : Nat) (hj : j ≤ l.length) (hij : i ≤ j) :
    (copyValue l i j).length = j - i := by
  simp [copyValue, List.length_take, List.length_drop]
  omega

theorem match_value_spec (l : List Nat) (hne : iIdx l ≠ jIdx l) :
    (copyValue l (iIdx l) (jIdx l)).length = jIdx l - iIdx l ∧
    1 ≤ (copyValue l (iIdx l) (jIdx l)).length ∧
    ∀ b ∈ copyValue l (iIdx l) (jIdx l), isspace b = false ∧ b ≠ 0 := by
  have hi : iIdx l < strlenC l := iIdx_lt_strlen_of_ne l hne
  have hij : iIdx l ≤ jIdx l := iIdx_le_jIdx l
  have hj : jIdx l ≤ strlenC l := jIdx_le_strlen l hi
  have hlen : strlenC l ≤ l.length := strlenC_le_length l
  have hLen : (copyValue l (iIdx l) (jIdx l)).length = jIdx l - iIdx l :=
    copyValue_length l (iIdx l) (jIdx l) (by omega) hij
  refine ⟨hLen, by omega, ?_⟩
  intro b hb
  obtain ⟨m, hm1, hm2, hm3⟩ := mem_copyValue l (iIdx l) (jIdx l) b (by omega) hb
  constructor
  · rw [← hm3]
    exact scanLoop_skipped isspace l (iIdx l) m hm1 hm2
  · rw [← hm3]
    exact byteAt_ne_zero l m (by omega)

/-- The general shape of every Found result of the fgets loop: the value
is nonempty, free of whitespace and of NUL bytes, and its length is
j - i for the delimiting indices of some matching input line. -/
theorem found_value_spec (ls : List (List Nat)) (v : List Nat)
    (h : (scanLines ls).outcome = COutcome.Ret (some v)) :
    1 ≤ v.length ∧ (∀ b ∈ v, isspace b = false ∧ b ≠ 0) ∧
    ∃ l ∈ ls, isMatch l = true ∧ v.length = jIdx l - iIdx l := by
  induction ls with
  | nil => simp [scanLines_nil] at h
  | cons l ls2 ih =>
    by_cases hm : isMatch l = true
    · rw [scanLines_cons_match l ls2 hm] at h
      rw [scanLine] at h
      by_cases hne : iIdx l ≠ jIdx l
      · simp [hne] at h
        obtain ⟨hLen, hOne, hBytes⟩ := match_value_spec l hne
        subst h
        exact ⟨hOne, hBytes, l, by simp, hm, hLen⟩
      · simp [hne] at h
    · rw [scanLines_cons_skip l ls2 (by simpa using hm)] at h
      simp at h
      obtain ⟨h1, h2, l2, hl2, h3, h4⟩ := ih h
      exact ⟨h1, h2, l2, by simp [hl2], h3, h4⟩

/-- Scanning a single line of the shape attribute-literal, whitespace
run, nonempty whitespace-free value, whitespace run: the value comes
back exactly, with no surrounding whitespace. -/
theorem scan_wellformed_line (ws1 v ws2 : List Nat)
    (hws1 : ∀ b ∈ ws1, isspace b = true)
    (hv : v ≠ [])
    (hvw : ∀ b ∈ v, isspace b = false)
    (hv0 : ∀ b ∈ v, b ≠ 0)
    (hws2 : ∀ b ∈ ws2, isspace b = true) :
    scanLines [JVMCFG_JARFILE_MANIFEST_MAIN_CLASS ++ ws1 ++ v ++ ws2]
      = { outcome := COutcome.Ret (some v), linesRead := 1, handleReleased := true } := by
  have hPlen : JVMCFG_JARFILE_MANIFEST_MAIN_CLASS.length = 11 := by decide
  have hmclen : mclen = 11 := by decide
  have hvpos : 0 < v.length := List.length_pos.mpr hv
  set l := JVMCFG_JARFILE_MANIFEST_MAIN_CLASS ++ ws1 ++ v ++ ws2 with hldef
  have hassoc : l = JVMCFG_JARFILE_MANIFEST_MAIN_CLASS ++ (ws1 ++ (v ++ ws2)) := by
    rw [hldef]
    simp [List.append_assoc]
  have h0 : ∀ b ∈ l, b ≠ 0 := by
    intro b hb
    rw [hldef] at hb
    simp [List.mem_append] at hb
    rcases hb with hb | hb | hb | hb
    · simp [JVMCFG_JARFILE_MANIFEST_MAIN_CLASS] at hb
      omega
    · exact isspace_ne_zero b (hws1 b hb)
    · exact hv0 b hb
    · exact isspace_ne_zero b (hws2 b hb)
  have hsl : strlenC l = 11 + ws1.length + v.length + ws2.length := by
    rw [strlenC_eq_length l h0, hldef]
    simp [List.length_append, hPlen]
    omega
  have hwsbyte : ∀ m, 11 ≤ m → m < 11 + ws1.length → isspace (byteAt l m) = true := by
    intro m h1 h2
    rw [hassoc,
      byteAt_append_right JVMCFG_JARFILE_MANIFEST_MAIN_CLASS (ws1 ++ (v ++ ws2)) m
        (by rw [hPlen]; omega),
      hPlen,
      byteAt_append_left ws1 (v ++ ws2) (m - 11) (by omega),
      byteAt_eq_getElem ws1 (m - 11) (by omega)]
    exact hws1 _ (List.getElem_mem _)
  have hvbyte : ∀ m, 11 + ws1.length ≤ m → m < 11 + ws1.length + v.length →
      isspace (byteAt l m) = false := by
    intro m h1 h2
    rw [hassoc,
      byteAt_append_right JVMCFG_JARFILE_MANIFEST_MAIN_CLASS (ws1 ++ (v ++ ws2)) m
        (by rw [hPlen]; omega),
      hPlen,
      byteAt_append_right ws1 (v ++ ws2) (m - 11) (by omega),
      byteAt_append_left v ws2 (m - 11 - ws1.length) (by omega),
      byteAt_eq_getElem v (m - 11 - ws1.length) (by omega)]
    exact hvw _ (List.getElem_mem _)
  have hi : iIdx l = 11 + ws1.length := by
    rw [iIdx, hmclen]
    apply scanLoop_eq (fun b => !isspace b) l (11 + ws1.length)
      (by rw [hsl]; omega)
      (Or.inr (by
        have := hvbyte (11 + ws1.length) le_rfl (by omega)
        simp [this]))
      11 (by omega)
    intro m hm1 hm2
    simp [hwsbyte m hm1 hm2]
  have hj : jIdx l = 11 + ws1.length + v.length := by
    rw [jIdx, hi]
    apply scanLoop_eq isspace l (11 + ws1.length + v.length)
      (by rw [hsl]; omega)
      ?_ (11 + ws1.length) (by omega)
      (fun m hm1 hm2 => hvbyte m hm1 hm2)
    cases ws2 with
    | nil =>
      left
      rw [hsl]
      simp
    | cons w ws2t =>
      right
      rw [hassoc,
        byteAt_append_right JVMCFG_JARFILE_MANIFEST_MAIN_CLASS (ws1 ++ (v ++ (w :: ws2t)))
          (11 + ws1.length + v.length) (by rw [hPlen]; omega),
        hPlen,
        byteAt_append_right ws1 (v ++ (w :: ws2t)) (11 + ws1.length + v.length - 11)
          (by omega),
        byteAt_append_right v (w :: ws2t) (11 + ws1.length + v.length - 11 - ws1.length)
          (by omega)]
      have hz : 11 + ws1.length + v.length - 11 - ws1.length - v.length = 0 := by omega
      rw [hz]
      exact hws2 w (by simp)
  have hm : isMatch l = true := by
    rw [isMatch_iff_take, mclen_eq, hassoc]
    exact List.take_left JVMCFG_JARFILE_MANIFEST_MAIN_CLASS (ws1 ++ (v ++ ws2))
  have hcopy : copyValue l (11 + ws1.length) (11 + ws1.length + v.length) = v := by
    rw [copyValue]
    have h1 : 11 + ws1.length + v.length - (11 + ws1.length) = v.length := by omega
    rw [h1]
    have h2 : l.drop (11 + ws1.length) = v ++ ws2 := by
      rw [hldef, List.append_assoc (JVMCFG_JARFILE_MANIFEST_MAIN_CLASS ++ ws1) v ws2]
      have h3 : (JVMCFG_JARFILE_MANIFEST_MAIN_CLASS ++ ws1).length = 11 + ws1.length := by
        simp [hPlen]
      rw [← h3]
      exact List.drop_left (JVMCFG_JARFILE_MANIFEST_MAIN_CLASS ++ ws1) (v ++ ws2)
    rw [h2]
    exact List.take_left v ws2
  have hne : 11 + ws1.length ≠ 11 + ws1.length + v.length := by omega
  rw [scanLines_cons_match l [] hm, scanLine, hi, hj]
  simp [hne, hcopy]

theorem scanLines_no_match (ls : List (List Nat)) (h : ∀ l ∈ ls, isMatch l = false) :
    (scanLines ls).outcome = COutcome.Ret none := by
  induction ls with
  | nil => rfl
  | cons l ls2 ih =>
    rw [scanLines_cons_skip l ls2 (h l (by simp))]
    exact ih (fun x hx => h x (by simp [hx]))

theorem scanLines_exit_shape (ls : List (List Nat))
    (h : returnsToCaller (scanLines ls).outcome = false) :
    (scanLines ls).outcome = COutcome.Exit true ExitCode.manifestJar := by
  induction ls with
  | nil => simp [scanLines_nil, returnsToCaller] at h
  | cons l ls2 ih =>
    by_cases hm : isMatch l = true
    · rw [scanLines_cons_match l ls2 hm] at h ⊢
      rw [scanLine] at h ⊢
      by_cases hij : iIdx l ≠ jIdx l
      · simp [hij, returnsToCaller] at h
      · simp [hij]
    · rw [scanLines_cons_skip l ls2 (by simpa using hm)] at h ⊢
      exact ih h

/-! The claims. -/

/-- Claim C1, as stated, is false of the code: on the first matching
line with an empty value (i == j) the function does not hand a
structured MalformedEmpty result back to the caller; at the concrete
input consisting of the single line "Main-Class:\n" it logs through
sysErrMsg and terminates the process through exit_jvm. -/
theorem claim1_counterexample :
    returnsToCaller (scanLines [JVMCFG_JARFILE_MANIFEST_MAIN_CLASS ++ [10]]).outcome = false ∧
    logsError (scanLines [JVMCFG_JARFILE_MANIFEST_MAIN_CLASS ++ [10]]).outcome = true := by
  decide

/-- Claim C1 (amended): when the first line matching the attribute
byte-run has an empty value after trimming (i == j), no further lines
are read after that line and the file handle is closed, but the
operation does not return a structured error to the caller: it logs
through sysErrMsg and terminates the process through
exit_jvm(EXIT_MANIFEST_JAR). -/
theorem claim1_empty_value_logs_and_exits (pre : List (List Nat)) (l : List Nat)
    (ls : List (List Nat))
    (hpre : ∀ x ∈ pre, isMatch x = false)
    (hl : isMatch l = true) (hij : iIdx l = jIdx l) :
    scanLines (pre ++ l :: ls)
      = { outcome := COutcome.Exit true ExitCode.manifestJar
          linesRead := pre.length + 1
          handleReleased := true } := by
  rw [scanLines_append_skip pre (l :: ls) hpre, scanLines_cons_match l ls hl, scanLine]
  simp [hij]

/-- Claim C1 witness: the amended statement at the concrete input
"O:\n", "Main-Class: \n", "A\n". -/
theorem claim1_witness :
    scanLines ([[79, 58, 10]] ++ (JVMCFG_JARFILE_MANIFEST_MAIN_CLASS ++ [32, 10]) :: [[65, 10]])
      = { outcome := COutcome.Exit true ExitCode.manifestJar
          linesRead := 2
          handleReleased := true } :=
  claim1_empty_value_logs_and_exits [[79, 58, 10]]
    (JVMCFG_JARFILE_MANIFEST_MAIN_CLASS ++ [32, 10]) [[65, 10]]
    (by decide) (by decide) (by decide)

/-- Claim C2, as stated, is false of the code: a scan over an empty
line sequence and a scan over a sequence with no matching line return
the very same null pointer (rnull) the function returns when the
source cannot be opened, so NotFound is a null value conflated with
the source-unavailable error; with an empty sequence even the whole
observable traces coincide. -/
theorem claim2_counterexample :
    manifest_get_main FileSource.unavailable = manifest_get_main (FileSource.lines []) ∧
    (manifest_get_main FileSource.unavailable).outcome = COutcome.Ret none ∧
    (manifest_get_main (FileSource.lines [[79, 58, 10]])).outcome = COutcome.Ret none := by
  decide

/-- Claim C2 (amended): at the output boundary, Found carries a
non-null owned string that is nonempty; NotFound is the null return
rnull; the malformed-empty case is distinguishable from both because
the function never returns then (it terminates the process); but the
null NotFound return is exactly the value returned when the source is
unavailable, so the caller cannot tell those two apart from the result
alone. -/
theorem claim2_output_markers :
    (manifest_get_main FileSource.unavailable).outcome = COutcome.Ret none ∧
    (∀ ls, (∀ l ∈ ls, isMatch l = false) →
      (manifest_get_main (FileSource.lines ls)).outcome = COutcome.Ret none) ∧
    (∀ ls v, (manifest_get_main (FileSource.lines ls)).outcome = COutcome.Ret (some v) →
      1 ≤ v.length) ∧
    (∀ ls, returnsToCaller (manifest_get_main (FileSource.lines ls)).outcome = false →
      (manifest_get_main (FileSource.lines ls)).outcome
        = COutcome.Exit true ExitCode.manifestJar) := by
  refine ⟨rfl, ?_, ?_, ?_⟩
  · intro ls h
    exact scanLines_no_match ls h
  · intro ls v h
    exact (found_value_spec ls v h).1
  · intro ls h
    exact scanLines_exit_shape ls h

/-- Claim C2 witness: the amended statement exercised at concrete
inputs: a non-matching line gives the null return, and a Found value
is nonempty. -/
theorem claim2_witness :
    (manifest_get_main (FileSource.lines [[79, 58, 10]])).outcome = COutcome.Ret none ∧
    1 ≤ ([102, 111, 111] : List Nat).length :=
  ⟨claim2_output_markers.2.1 [[79, 58, 10]] (by decide),
   claim2_output_markers.2.2.1
     [JVMCFG_JARFILE_MANIFEST_MAIN_CLASS ++ [32, 102, 111, 111, 10]]
     [102, 111, 111] (by decide)⟩

/-- Claim C3: with at least one line matching the attribute byte-run,
the result is fully determined by the lines up to and including the
first such line: any continuation after it yields the identical trace,
and exactly pre.length + 1 lines are read. -/
theorem claim3_first_match_only (pre : List (List Nat)) (l : List Nat)
    (ls ls2 : List (List Nat))
    (hpre : ∀ x ∈ pre, isMatch x = false) (hl : isMatch l = true) :
    scanLines (pre ++ l :: ls) = scanLines (pre ++ l :: ls2) ∧
    (scanLines (pre ++ l :: ls)).linesRead = pre.length + 1 := by
  constructor
  · rw [scanLines_append_skip pre (l :: ls) hpre, scanLines_append_skip pre (l :: ls2) hpre,
      scanLines_cons_match l ls hl, scanLines_cons_match l ls2 hl]
  · rw [scanLines_append_skip pre (l :: ls) hpre, scanLines_cons_match l ls hl]
    simp [scanLine_linesRead]

/-- Claim C3 witness: two sequences sharing the first two lines, the
second of which matches, scan to the same trace; two lines are read. -/
theorem claim3_witness :
    scanLines ([[79, 58, 10]] ++ (JVMCFG_JARFILE_MANIFEST_MAIN_CLASS ++ [32, 102, 10])
        :: [[120, 10]])
      = scanLines ([[79, 58, 10]] ++ (JVMCFG_JARFILE_MANIFEST_MAIN_CLASS ++ [32, 102, 10])
        :: []) ∧
    (scanLines ([[79, 58, 10]] ++ (JVMCFG_JARFILE_MANIFEST_MAIN_CLASS ++ [32, 102, 10])
        :: [[120, 10]])).linesRead = 2 :=
  claim3_first_match_only [[79, 58, 10]] (JVMCFG_JARFILE_MANIFEST_MAIN_CLASS ++ [32, 102, 10])
    [[120, 10]] [] (by decide) (by decide)

/-- Claim C4: a single line of the form attribute byte-run, whitespace
run (possibly empty), nonempty whitespace-free NUL-free value,
whitespace run (possibly empty), scans to Found of exactly that value,
with no surrounding whitespace included. -/
theorem claim4_trimmed_value (ws1 v ws2 : List Nat)
    (hws1 : ∀ b ∈ ws1, isspace b = true)
    (hv : v ≠ [])
    (hvw : ∀ b ∈ v, isspace b = false)
    (hv0 : ∀ b ∈ v, b ≠ 0)
    (hws2 : ∀ b ∈ ws2, isspace b = true) :
    (scanLines [JVMCFG_JARFILE_MANIFEST_MAIN_CLASS ++ ws1 ++ v ++ ws2]).outcome
      = COutcome.Ret (some v) := by
  rw [scan_wellformed_line ws1 v ws2 hws1 hv hvw hv0 hws2]

/-- Claim C4 witness: "Main-Class:   foo.Bar   \n" scans to
Found("foo.Bar"). -/
theorem claim4_witness :
    (scanLines [JVMCFG_JARFILE_MANIFEST_MAIN_CLASS ++ [32, 32, 32]
        ++ [102, 111, 111, 46, 66, 97, 114] ++ [32, 32, 32, 10]]).outcome
      = COutcome.Ret (some [102, 111, 111, 46, 66, 97, 114]) :=
  claim4_trimmed_value [32, 32, 32] [102, 111, 111, 46, 66, 97, 114] [32, 32, 32, 10]
    (by decide) (by decide) (by decide) (by decide) (by decide)

/-- Claim C5: a line matches iff its first mclen bytes are exactly the
bytes of the attribute literal, by exact case-sensitive comparison at
column 0 (so shorter lines, any differing or case-differing byte, and
leading whitespace all fail), and a non-matching line is skipped with
the scan of the remaining lines unchanged. -/
theorem claim5_exact_byte_match :
    (∀ l, isMatch l = true ↔ l.take mclen = JVMCFG_JARFILE_MANIFEST_MAIN_CLASS) ∧
    (∀ l ls, isMatch l = false →
      scanLines (l :: ls)
        = { scanLines ls with linesRead := (scanLines ls).linesRead + 1 }) :=
  ⟨isMatch_iff_take, scanLines_cons_skip⟩

/-- Claim C5 witness: "Main-Class: x\n" matches; the case-differing
line "main" does not and is skipped. -/
theorem claim5_witness :
    isMatch [77, 97, 105, 110, 45, 67, 108, 97, 115, 115, 58, 32, 120, 10] = true ∧
    scanLines [[109, 97, 105, 110]]
      = { scanLines [] with linesRead := (scanLines []).linesRead + 1 } :=
  ⟨(claim5_exact_byte_match.1 [77, 97, 105, 110, 45, 67, 108, 97, 115, 115, 58, 32, 120, 10]).mpr
      (by decide),
   claim5_exact_byte_match.2 [109, 97, 105, 110] [] (by decide)⟩

/-- Claim C6: a sequence with no matching line, the empty sequence
included, scans to the rnull return that models NotFound. -/
theorem claim6_not_found (ls : List (List Nat)) (h : ∀ l ∈ ls, isMatch l = false) :
    (scanLines ls).outcome = COutcome.Ret none :=
  scanLines_no_match ls h

/-- Claim C6 witness: the sequence "Other: x\n" has no matching line
and scans to the null return. -/
theorem claim6_witness :
    (scanLines [[79, 116, 104, 101, 114, 58, 32, 120, 10]]).outcome = COutcome.Ret none :=
  claim6_not_found [[79, 116, 104, 101, 114, 58, 32, 120, 10]] (by decide)

/-- Claim C7: on every exit path of manifest_get_main no open file
handle is still held at the end: the fopen-failure path never acquired
one, and the Found, NotFound and malformed-empty paths all reach an
fclose call (manifest.c lines 151 and 180) before finishing. -/
theorem claim7_handle_released :
    ∀ src : FileSource, (manifest_get_main src).handleReleased = true := by
  intro src
  cases src with
  | unavailable => rfl
  | lines ls => exact scanLines_handleReleased ls

/-- Claim C8: the whitespace classification used by both delimiting
scans accepts exactly space, tab, newline, carriage return, form feed
and vertical tab; consequently no byte of a Found value is a newline
or carriage return. -/
theorem claim8_whitespace_class :
    (∀ c : Nat, isspace c = true ↔
      (c = 32 ∨ c = 9 ∨ c = 10 ∨ c = 13 ∨ c = 12 ∨ c = 11)) ∧
    (∀ ls v, (scanLines ls).outcome = COutcome.Ret (some v) →
      ∀ b ∈ v, b ≠ 10 ∧ b ≠ 13) := by
  constructor
  · intro c
    simp [isspace]
    tauto
  · intro ls v h b hb
    have h2 := ((found_value_spec ls v h).2.1 b hb).1
    constructor
    · rintro rfl
      simp [isspace] at h2
    · rintro rfl
      simp [isspace] at h2

/-- Claim C8 witness: space is whitespace, and the byte 102 of a
concrete Found value is neither newline nor carriage return. -/
theorem claim8_witness :
    isspace 32 = true ∧ ((102 : Nat) ≠ 10 ∧ (102 : Nat) ≠ 13) :=
  ⟨(claim8_whitespace_class.1 32).mpr (Or.inl rfl),
   claim8_whitespace_class.2 [JVMCFG_JARFILE_MANIFEST_MAIN_CLASS ++ [32, 102, 10]] [102]
     (by decide) 102 (by decide)⟩

/-- Claim C9: every Found value is nonempty, contains no whitespace
byte and no NUL byte, and its length is j - i for the delimiting
indices computed on some matching line of the input. -/
theorem claim9_found_invariants (ls : List (List Nat)) (v : List Nat)
    (h : (scanLines ls).outcome = COutcome.Ret (some v)) :
    1 ≤ v.length ∧ (∀ b ∈ v, isspace b = false ∧ b ≠ 0) ∧
    ∃ l ∈ ls, isMatch l = true ∧ v.length = jIdx l - iIdx l :=
  found_value_spec ls v h

/-- Claim C9 witness: a concrete Found value and the nonemptiness the
theorem yields for it. -/
theorem claim9_witness :
    (scanLines [JVMCFG_JARFILE_MANIFEST_MAIN_CLASS ++ [32, 102, 111, 111, 10]]).outcome
      = COutcome.Ret (some [102, 111, 111]) ∧
    1 ≤ ([102, 111, 111] : List Nat).length :=
  ⟨by decide,
   (claim9_found_invariants [JVMCFG_JARFILE_MANIFEST_MAIN_CLASS ++ [32, 102, 111, 111, 10]]
     [102, 111, 111] (by decide)).1⟩

/-- Claim C10: the scan terminates on every finite input: the fgets
loop reads at most one line per element of the sequence, and each
inner for-loop only moves its index forward, bounded by strlen of the
line, itself bounded by the line's length. -/
theorem claim10_termination_bounds :
    (∀ ls, (scanLines ls).linesRead ≤ ls.length) ∧
    (∀ (p : Nat → Bool) (s : List Nat) (k : Nat),
      k ≤ scanLoop p s k ∧ scanLoop p s k ≤ max k (strlenC s)) ∧
    (∀ s : List Nat, strlenC s ≤ s.length) :=
  ⟨scanLines_linesRead_le,
   fun p s k => ⟨le_scanLoop p s k, scanLoop_le p s k⟩,
   strlenC_le_length⟩

end Harmony
